import Mathlib

/-!
Shallow embedding of the EdgeFinder core (src/edgefinder) in Lean 4.

The numeric code is embedded over exact rationals (ℚ) where the Python is
plain field arithmetic, and over the reals (ℝ) for the de-vig engine, whose
`power` and `shin` methods use `math.sqrt` and real exponentiation.
Python `round(x, 2)` (round-half-to-even on the decimal value) is modelled
by `round2`.  Python dicts keyed by strings are modelled as association
lists in insertion order; Python f-string group keys are modelled by string
concatenation with `toString` of the rational in place of `str(float)`
(both are injective value representations).
-/

/-- Python `round` to the nearest integer, ties going to the even integer
(Python 3 banker's rounding), on an exact rational. -/
def python_round (x : ℚ) : ℤ :=
  if x - ⌊x⌋ = 1/2 then (if 2 ∣ ⌊x⌋ then ⌊x⌋ else ⌊x⌋ + 1) else round x

/-- Python `round(x, 2)`: round to two decimal places. -/
def round2 (x : ℚ) : ℚ := (python_round (x * 100) : ℚ) / 100

/-- `models.Odds`: odds from a single sportsbook (bookmaker name and
American price).  `decimal` and `implied_prob` are the derived fields
computed in `__post_init__`. -/
structure Odds where
  bookmaker : String
  american : ℤ
deriving DecidableEq, Repr

/-- `Odds._american_to_decimal`, the value stored in `self.decimal`. -/
def Odds.decimal (o : Odds) : ℚ :=
  if 0 < o.american then ((o.american : ℚ) / 100) + 1
  else (100 / |(o.american : ℚ)|) + 1

/-- `self.implied_prob = 1 / self.decimal`. -/
def Odds.implied_prob (o : Odds) : ℚ := 1 / o.decimal

/-- `models.Market`: one outcome of one event with all books' quotes.
(The unused `commence_time` field is omitted.) -/
structure Market where
  sport : String
  event : String
  market_type : String
  selection : String
  point : Option ℚ
  odds_list : List Odds
deriving DecidableEq, Repr

/-- `Market.best_odds`: `max(self.odds_list, key=lambda o: o.decimal)`,
`None` on an empty list.  Python `max` keeps the first of equal maxima, so
the fold replaces the accumulator only on a strictly larger decimal. -/
def Market.best_odds (m : Market) : Option Odds :=
  match m.odds_list with
  | [] => none
  | h :: t => some (t.foldl (fun acc o => if acc.decimal < o.decimal then o else acc) h)

/-- Python `str.lower`, modelled character-wise with the ASCII lowering
`Char.toLower` (all bookmaker names in this program are ASCII). -/
def str_lower (s : String) : String := String.mk (s.data.map Char.toLower)

/-- `Market.get_odds_by_book`: first odds whose bookmaker equals the query
ignoring case. -/
def Market.get_odds_by_book (m : Market) (bookmaker : String) : Option Odds :=
  m.odds_list.find? (fun o => str_lower o.bookmaker == str_lower bookmaker)

/-- `config.Config.book_weights`: sportsbook sharpness weights. -/
def book_weights : List (String × ℚ) :=
  [("pinnacle", 1), ("circa", 0.95), ("bookmaker", 0.9), ("betcris", 0.85),
   ("bovada", 0.7), ("betonlineag", 0.7), ("draftkings", 0.6), ("fanduel", 0.6),
   ("betmgm", 0.55), ("pointsbetus", 0.5), ("caesars", 0.5), ("wynnbet", 0.45),
   ("superbook", 0.8), ("betrivers", 0.5), ("unibet", 0.5)]

/-- `Config.get_book_weight`: `self.book_weights.get(bookmaker.lower(), 0.5)`. -/
def get_book_weight (bookmaker : String) : ℚ :=
  ((book_weights.lookup (str_lower bookmaker)).getD 0.5)

/-- `kelly.KellyResult`. -/
structure KellyResult where
  full_kelly : ℚ
  recommended_fraction : ℚ
  recommended_stake : ℚ
  edge : ℚ
  odds_decimal : ℚ
deriving DecidableEq, Repr

/-- `kelly.kelly_criterion`.  The Python defaults are `fraction = 0.25` and
`max_bet_percent = 0.05`; here both are explicit arguments. -/
def kelly_criterion (win_prob decimal_odds bankroll fraction max_bet_percent : ℚ) :
    KellyResult :=
  if win_prob ≤ 0 ∨ 1 ≤ win_prob then
    { full_kelly := 0, recommended_fraction := 0, recommended_stake := 0,
      edge := 0, odds_decimal := decimal_odds }
  else
    let b := decimal_odds - 1
    let p := win_prob
    let q := 1 - p
    let full_kelly := if 0 < b then (b * p - q) / b else 0
    if full_kelly ≤ 0 then
      { full_kelly := 0, recommended_fraction := 0, recommended_stake := 0,
        edge := b * p - q, odds_decimal := decimal_odds }
    else
      let fractional_kelly := full_kelly * fraction
      let capped_fraction := min fractional_kelly max_bet_percent
      let stake := bankroll * capped_fraction
      { full_kelly := full_kelly, recommended_fraction := capped_fraction,
        recommended_stake := round2 stake, edge := b * p - q,
        odds_decimal := decimal_odds }

/-- `models.ArbitrageOpportunity`. -/
structure ArbitrageOpportunity where
  sport : String
  event : String
  market_type : String
  selections : List (String × Odds)
  total_implied : ℚ
  profit_percent : ℚ
  stakes : List (String × String × ℚ)
deriving DecidableEq, Repr

/-- The point suffix of the grouping key: `f"_{market.point}"` when the
point is present (`toString` of the rational standing in for `str(float)`,
both injective). -/
def point_str (p : Option ℚ) : String :=
  match p with
  | none => ""
  | some q => "_" ++ toString q

/-- The grouping key `f"{market.event}_{market.market_type}{point_str}"`
of `arbitrage._group_by_event`. -/
def group_key (m : Market) : String :=
  m.event ++ "_" ++ m.market_type ++ point_str m.point

/-- One step of building the insertion-ordered dict of
`arbitrage._group_by_event`: append the market to its key's group,
creating the group at the end on a fresh key. -/
def insert_market (acc : List (String × List Market)) (m : Market) :
    List (String × List Market) :=
  if acc.any (fun kv => kv.1 = group_key m) then
    acc.map (fun kv => if kv.1 = group_key m then (kv.1, kv.2 ++ [m]) else kv)
  else
    acc ++ [(group_key m, [m])]

/-- `arbitrage._group_by_event`: group markets by event, market type and
point, preserving dict insertion order. -/
def group_by_event (markets : List Market) : List (String × List Market) :=
  markets.foldl insert_market []

/-- The collection loop of `arbitrage._check_arbitrage`: best odds per
outcome market, `none` as soon as one market has no odds. -/
def collect_best : List Market → Option (List (String × Odds))
  | [] => some []
  | m :: rest =>
    match m.best_odds with
    | none => none
    | some b => (collect_best rest).map (fun l => (m.selection, b) :: l)

/-- `arbitrage._calculate_arb_stakes`:
`stake_i = total_stake / (decimal_i * sum(1/decimal_j))`, rounded to two
decimals in the returned triple. -/
def calculate_arb_stakes (selections : List (String × Odds)) (total_stake : ℚ) :
    List (String × String × ℚ) :=
  let total_inverse := (selections.map (fun so => 1 / so.2.decimal)).sum
  selections.map (fun so =>
    (so.1, so.2.bookmaker, round2 (total_stake / (so.2.decimal * total_inverse))))

/-- `arbitrage._check_arbitrage`: `none` for groups of fewer than two
markets or with a market lacking odds; otherwise an opportunity exactly
when the summed best implied probabilities are below 1 and the profit
percentage reaches `min_profit`. -/
def check_arbitrage (markets : List Market) (min_profit total_stake : ℚ) :
    Option ArbitrageOpportunity :=
  match markets with
  | m0 :: _ :: _ =>
    match collect_best markets with
    | none => none
    | some best_odds_per_outcome =>
      let total_implied := (best_odds_per_outcome.map (fun so => so.2.implied_prob)).sum
      if 1 ≤ total_implied then none
      else
        let profit_percent := (1 / total_implied - 1) * 100
        if profit_percent < min_profit then none
        else
          some { sport := m0.sport, event := m0.event, market_type := m0.market_type,
                 selections := best_odds_per_outcome, total_implied := total_implied,
                 profit_percent := profit_percent,
                 stakes := calculate_arb_stakes best_odds_per_outcome total_stake }
  | _ => none

/-- `arbitrage.find_arbitrage`: check every event group and sort the
opportunities by profit percentage descending (Python's stable sort with
`reverse=True`).  The Python defaults are `min_profit = 0.5`,
`total_stake = 1000.0`. -/
def find_arbitrage (markets : List Market) (min_profit total_stake : ℚ) :
    List ArbitrageOpportunity :=
  let opportunities :=
    (group_by_event markets).filterMap (fun kv => check_arbitrage kv.2 min_profit total_stake)
  opportunities.mergeSort (fun a b => decide (b.profit_percent ≤ a.profit_percent))

/-- A middle opportunity as assembled by `arbitrage.find_middles`; the two
`f"{selection} {point:+.1f}"` strings are modelled as (selection, point)
pairs. -/
structure Middle where
  event : String
  side1 : String × ℚ
  book1 : String
  odds1 : ℤ
  side2 : String × ℚ
  book2 : String
  odds2 : ℤ
  middle_size : ℚ
deriving DecidableEq, Repr

/-- The body of the inner loop of `arbitrage.find_middles` for one ordered
pair of markets of a group. -/
def middle_check (market1 market2 : Market) (min_gap : ℚ) : Option Middle :=
  match market1.point, market2.point with
  | some point1, some point2 =>
    if market1.selection = market2.selection then none
    else
      let sized : Option ℚ :=
        if point1 < 0 ∧ 0 < point2 then some (point2 + point1)
        else if 0 < point1 ∧ point2 < 0 then some (point1 + point2)
        else none
      match sized with
      | none => none
      | some middle_size =>
        if min_gap ≤ middle_size then
          match market1.best_odds, market2.best_odds with
          | some best1, some best2 =>
            some { event := market1.event,
                   side1 := (market1.selection, point1), book1 := best1.bookmaker,
                   odds1 := best1.american,
                   side2 := (market2.selection, point2), book2 := best2.bookmaker,
                   odds2 := best2.american,
                   middle_size := middle_size }
          | _, _ => none
        else none
  | _, _ => none

/-- The `for i, market1 in enumerate(markets): for market2 in markets[i+1:]`
double loop of `arbitrage.find_middles`. -/
def pair_middles (min_gap : ℚ) : List Market → List Middle
  | [] => []
  | m1 :: rest => rest.filterMap (fun m2 => middle_check m1 m2 min_gap) ++ pair_middles min_gap rest

/-- `arbitrage.find_middles`: group the spread markets by event key, scan
all pairs inside each group of at least two markets, and sort the middles
by size descending.  The Python default is `min_gap = 0.5`. -/
def find_middles (spread_markets : List Market) (min_gap : ℚ) : List Middle :=
  let middles := (group_by_event spread_markets).flatMap
    (fun kv => if kv.2.length < 2 then [] else pair_middles min_gap kv.2)
  middles.mergeSort (fun a b => decide (b.middle_size ≤ a.middle_size))

/-- `devig.multiplicative_devig`: divide each probability by the sum
(input returned unchanged on a zero sum). -/
noncomputable def multiplicative_devig (implied_probs : List ℝ) : List ℝ :=
  let total := implied_probs.sum
  if total = 0 then implied_probs
  else implied_probs.map (fun p => p / total)

/-- `devig.additive_devig`: subtract `(total - 1) / n` from each entry,
floor at 0.001, renormalize. -/
noncomputable def additive_devig (implied_probs : List ℝ) : List ℝ :=
  if implied_probs.length = 0 then implied_probs
  else
    let total := implied_probs.sum
    let vig_per_side := (total - 1) / implied_probs.length
    let fair_probs := implied_probs.map (fun p => max 0.001 (p - vig_per_side))
    let total_fair := fair_probs.sum
    fair_probs.map (fun p => p / total_fair)

/-- `sum_of_powers` inside `devig.power_devig`. -/
noncomputable def sum_of_powers (probs : List ℝ) (k : ℝ) : ℝ :=
  (probs.map (fun p => p ^ k)).sum

/-- One iteration of the binary search for the exponent in
`devig.power_devig`. -/
noncomputable def power_search_step (implied_probs : List ℝ) (lh : ℝ × ℝ) : ℝ × ℝ :=
  let mid := (lh.1 + lh.2) / 2
  if sum_of_powers implied_probs mid < 1 then (lh.1, mid) else (mid, lh.2)

/-- `devig.power_devig`: 50 binary-search iterations for `k` on
`[0.5, 2.0]`, then `p ^ k` normalized. -/
noncomputable def power_devig (implied_probs : List ℝ) : List ℝ :=
  if implied_probs.length < 2 then implied_probs
  else
    let lh := (power_search_step implied_probs)^[50] (0.5, 2.0)
    let k := (lh.1 + lh.2) / 2
    let fair_probs := implied_probs.map (fun p => p ^ k)
    let total := fair_probs.sum
    fair_probs.map (fun p => p / total)

/-- `devig.shin_devig`: the Shin insider-trading correction for exactly
two outcomes, falling back to `multiplicative_devig` on any other length,
a negative discriminant, `z = 0` or `total = 1`. -/
noncomputable def shin_devig (implied_probs : List ℝ) : List ℝ :=
  match implied_probs with
  | [p1, p2] =>
    let total := p1 + p2
    let discriminant := (total - 1) ^ 2 + 4 * (total - 1) * p1 * p2 / total
    if discriminant < 0 then multiplicative_devig [p1, p2]
    else
      let z0 := if total ≠ 1 then (total - 1 - Real.sqrt discriminant) / (2 * (total - 1)) else 0
      let z := max 0 (min z0 0.5)
      if z = 0 ∨ total = 1 then multiplicative_devig [p1, p2]
      else
        let fair_probs := [p1, p2].map (fun p =>
          let inner := z ^ 2 + 4 * (1 - z) * p ^ 2 / total
          max 0.001 (if 1 - z ≠ 0 then (Real.sqrt inner - z) / (2 * (1 - z)) else p))
        let total_fair := fair_probs.sum
        fair_probs.map (fun p => p / total_fair)
  | l => multiplicative_devig l

/-- `devig.weighted_devig`: blend the four base methods with fixed weights
(`[0.2, 0.1, 0.3, 0.4, 0.0]` for two outcomes, `[0.3, 0.1, 0.5, 0.1, 0.0]`
otherwise, a `weights` argument overriding them), then normalize.  The
Python default argument `weights=None` is the `none` case. -/
noncomputable def weighted_devig (implied_probs : List ℝ) (weights : Option (List ℝ)) :
    List ℝ :=
  let ws := weights.getD
    (if implied_probs.length = 2 then [0.2, 0.1, 0.3, 0.4, 0.0]
     else [0.3, 0.1, 0.5, 0.1, 0.0])
  let results := [multiplicative_devig implied_probs, additive_devig implied_probs,
                  power_devig implied_probs, shin_devig implied_probs]
  let total_weight := (ws.take 4).sum
  let fair_probs := (List.range implied_probs.length).map (fun i =>
    ((results.zip ws).map (fun rw => rw.1.getD i 0 * rw.2 / total_weight)).sum)
  let total := fair_probs.sum
  fair_probs.map (fun p => p / total)

/-- `models.DevigResult`. -/
structure DevigResult where
  fair_probs : List ℝ
  method : String
  original_implied : List ℝ
  vig_removed : ℝ

/-- `devig.DEVIG_METHODS`: the strategy table, in dict insertion order. -/
noncomputable def DEVIG_METHODS : List (String × (List ℝ → List ℝ)) :=
  [("multiplicative", multiplicative_devig), ("additive", additive_devig),
   ("power", power_devig), ("shin", shin_devig),
   ("weighted", fun l => weighted_devig l none)]

/-- The `ValueError` message of `devig.devig` for an unknown method name,
listing `DEVIG_METHODS.keys()`. -/
def devig_error_message (method : String) : String :=
  "Unknown de-vig method: " ++ method ++
    ". Available: [\x27multiplicative\x27, \x27additive\x27, \x27power\x27, \x27shin\x27, \x27weighted\x27]"

/-- `devig.devig`: dispatch on the method name, raising `ValueError`
(modelled as `Except.error`) on an unknown name.  The Python default is
`method="weighted"`. -/
noncomputable def devig (implied_probs : List ℝ) (method : String) :
    Except String DevigResult :=
  match DEVIG_METHODS.lookup method with
  | none => .error (devig_error_message method)
  | some devig_func =>
    let fair_probs := devig_func implied_probs
    let original_total := implied_probs.sum
    .ok { fair_probs := fair_probs, method := method,
          original_implied := implied_probs,
          vig_removed := if 1 < original_total then original_total - 1 else 0 }

/-- C3 counterexample: at the degenerate win probability `p = 0` (which
satisfies `p ≤ 0`) with decimal odds 2, the code returns `edge = 0`,
while the raw edge `b·p − (1−p)` is `−1`. -/
theorem kelly_degenerate_edge_counterexample :
    (0:ℚ) ≤ 0 ∧
    kelly_criterion 0 2 1000 (1/4) (1/20) = ⟨0, 0, 0, 0, 2⟩ ∧
    ((2:ℚ) - 1) * 0 - (1 - 0) = -1 ∧ (0:ℚ) ≠ -1 := by
  refine ⟨le_refl 0, by norm_num [kelly_criterion], by norm_num, by norm_num⟩

/-- C3 (amended): a degenerate win probability (`p ≤ 0` or `p ≥ 1`) yields
the all-zero no-bet result (edge field 0); a non-degenerate `p` whose full
Kelly fraction is non-positive yields a zero stake with the raw edge
`b·p − (1−p)` reported.  No case raises. -/
theorem kelly_no_bet_spec (p d B f c : ℚ) :
    (p ≤ 0 ∨ 1 ≤ p → kelly_criterion p d B f c = ⟨0, 0, 0, 0, d⟩) ∧
    (0 < p → p < 1 →
      (if 0 < d - 1 then ((d - 1) * p - (1 - p)) / (d - 1) else 0) ≤ 0 →
      kelly_criterion p d B f c = ⟨0, 0, 0, (d - 1) * p - (1 - p), d⟩) := by
  constructor
  · intro h
    simp only [kelly_criterion, if_pos h]
  · intro h0 h1 hk
    have hdeg : ¬(p ≤ 0 ∨ 1 ≤ p) := by push_neg; exact ⟨h0, h1⟩
    simp only [kelly_criterion, if_neg hdeg, if_pos hk]

/-- Witness for `kelly_no_bet_spec`: the degenerate case `p = 0` and the
spec's own no-edge example `p = 0.4`, decimal odds 1.5 (edge −0.4). -/
theorem kelly_no_bet_spec_witness :
    kelly_criterion 0 2 1000 (1/4) (1/20) = ⟨0, 0, 0, 0, 2⟩ ∧
    kelly_criterion (2/5) (3/2) 1000 (1/4) (1/20) =
      ⟨0, 0, 0, ((3:ℚ)/2 - 1) * (2/5) - (1 - 2/5), 3/2⟩ :=
  ⟨(kelly_no_bet_spec 0 2 1000 (1/4) (1/20)).1 (Or.inl (le_refl 0)),
   (kelly_no_bet_spec (2/5) (3/2) 1000 (1/4) (1/20)).2 (by norm_num) (by norm_num) (by norm_num)⟩

/-- C6: for `p` in (0,1) with positive full Kelly, the result is the full
Kelly fraction, the fractional capped recommendation
`min(full·fraction, cap)`, and the stake `bankroll × capped` rounded to
two decimals, with the raw edge reported. -/
theorem kelly_positive_spec (p d B f c : ℚ) (h0 : 0 < p) (h1 : p < 1)
    (hk : 0 < (if 0 < d - 1 then ((d - 1) * p - (1 - p)) / (d - 1) else 0)) :
    kelly_criterion p d B f c =
      ⟨((d - 1) * p - (1 - p)) / (d - 1),
       min (((d - 1) * p - (1 - p)) / (d - 1) * f) c,
       round2 (B * min (((d - 1) * p - (1 - p)) / (d - 1) * f) c),
       (d - 1) * p - (1 - p), d⟩ := by
  have hdeg : ¬(p ≤ 0 ∨ 1 ≤ p) := by push_neg; exact ⟨h0, h1⟩
  have hb : 0 < d - 1 := by
    by_contra hb
    rw [if_neg hb] at hk
    exact lt_irrefl 0 hk
  rw [if_pos hb] at hk
  simp only [kelly_criterion, if_neg hdeg, if_pos hb, if_neg (not_le.mpr hk)]

/-- Witness for `kelly_positive_spec`: the claim's instance `p = 0.55`,
decimal odds 2.0, bankroll 1000, fraction 0.25: full Kelly 0.10,
recommended fraction 0.025, stake $25.00. -/
theorem kelly_positive_spec_witness :
    kelly_criterion (11/20) 2 1000 (1/4) (1/20) = ⟨1/10, 1/40, 25, 1/10, 2⟩ :=
  (kelly_positive_spec (11/20) 2 1000 (1/4) (1/20) (by norm_num) (by norm_num)
    (by norm_num)).trans
    (by norm_num [round2, python_round, round_eq, min_def, Int.floor_eq_iff])

/-- C2 counterexample: for best decimal odds 2.10 and 2.05 (American +110
and +105) and a $1000 total stake, the detector reports stakes $493.98 and
$506.02 with payout about $1037.35, not the claimed $486.62 / $513.38 with
payout about $1022 (each claimed figure is off by far more than any
rounding tolerance). -/
theorem arbitrage_example_counterexample :
    check_arbitrage
      [Market.mk "nfl" "G" "h2h" "A" none [Odds.mk "BookA" 110],
       Market.mk "nfl" "G" "h2h" "B" none [Odds.mk "BookB" 105]] (1/2) 1000 =
      some ⟨"nfl", "G", "h2h", [("A", Odds.mk "BookA" 110), ("B", Odds.mk "BookB" 105)],
            830/861, 310/83, [("A", "BookA", 24699/50), ("B", "BookB", 25301/50)]⟩ ∧
    ¬ |(24699/50 : ℚ) - 48662/100| ≤ 5 ∧
    ¬ |(25301/50 : ℚ) - 51338/100| ≤ 5 ∧
    ¬ |(24699/50 : ℚ) * (21/10) - 1022| ≤ 10 := by
  refine ⟨?_, by rw [abs_le]; norm_num, by rw [abs_le]; norm_num, by rw [abs_le]; norm_num⟩
  norm_num [check_arbitrage, collect_best, Market.best_odds, calculate_arb_stakes,
            Odds.decimal, Odds.implied_prob, round2, python_round, round_eq, Int.floor_eq_iff]

/-- C2 (amended): for best decimal odds 2.10 and 2.05 and a $1000 stake the
detector reports profit% 310/83 ≈ 3.73 (within 0.01 of 3.74), stakes
$493.98 and $506.02, and payouts within two cents of each other, about
$1037.35 whichever outcome wins. -/
theorem arbitrage_example_actual :
    check_arbitrage
      [Market.mk "nfl" "G" "h2h" "A" none [Odds.mk "BookA" 110],
       Market.mk "nfl" "G" "h2h" "B" none [Odds.mk "BookB" 105]] (1/2) 1000 =
      some ⟨"nfl", "G", "h2h", [("A", Odds.mk "BookA" 110), ("B", Odds.mk "BookB" 105)],
            830/861, 310/83, [("A", "BookA", 24699/50), ("B", "BookB", 25301/50)]⟩ ∧
    |(310/83 : ℚ) - 374/100| ≤ 1/100 ∧
    |(24699/50 : ℚ) * (21/10) - 25301/50 * (41/20)| ≤ 2/100 ∧
    |(24699/50 : ℚ) * (21/10) - 103735/100| ≤ 1/10 := by
  refine ⟨?_, by rw [abs_le]; norm_num, by rw [abs_le]; norm_num, by rw [abs_le]; norm_num⟩
  norm_num [check_arbitrage, collect_best, Market.best_odds, calculate_arb_stakes,
            Odds.decimal, Odds.implied_prob, round2, python_round, round_eq, Int.floor_eq_iff]

/-- C4 counterexample: with three outcomes at decimal odds 3 and a $1000
total stake, each returned stake is rounded to $333.33, so the returned
stakes sum to $999.99, not exactly $1000. -/
theorem calculate_arb_stakes_round_counterexample :
    (Odds.mk "b" 200).decimal = 3 ∧
    ((calculate_arb_stakes
        [("A", Odds.mk "b" 200), ("B", Odds.mk "b" 200), ("C", Odds.mk "b" 200)] 1000).map
      (fun t => t.2.2)).sum = 99999/100 ∧
    (99999/100 : ℚ) ≠ 1000 := by
  have hfr : Int.fract ((100000:ℚ)/3) = 1/3 := by
    unfold Int.fract
    norm_num [Int.floor_eq_iff]
  refine ⟨by norm_num [Odds.decimal], ?_, by norm_num⟩
  norm_num [calculate_arb_stakes, Odds.decimal, round2, python_round, round_eq,
            Int.floor_eq_iff, hfr]

/-- C4 (amended): the function returns the unrounded stakes
`total_stake / (decimal_i × Σ(1/decimal_j))` rounded to two decimals; the
unrounded stakes give an equal payout `total_stake / Σ(1/decimal_j)` on
every outcome and sum exactly to the total stake. -/
theorem calculate_arb_stakes_spec (selections : List (String × Odds)) (total_stake : ℚ)
    (hne : selections ≠ [])
    (hd : ∀ so ∈ selections, 1 < so.2.decimal) :
    calculate_arb_stakes selections total_stake =
      selections.map (fun so => (so.1, so.2.bookmaker,
        round2 (total_stake /
          (so.2.decimal * (selections.map (fun so => 1 / so.2.decimal)).sum)))) ∧
    (∀ so ∈ selections,
      total_stake / (so.2.decimal * (selections.map (fun so => 1 / so.2.decimal)).sum) *
          so.2.decimal =
        total_stake / (selections.map (fun so => 1 / so.2.decimal)).sum) ∧
    (selections.map (fun so =>
      total_stake /
        (so.2.decimal * (selections.map (fun so => 1 / so.2.decimal)).sum))).sum =
      total_stake := by
  have hT : 0 < (selections.map (fun so => 1 / so.2.decimal)).sum := by
    apply List.sum_pos
    · intro x hx
      rw [List.mem_map] at hx
      obtain ⟨so, hso, rfl⟩ := hx
      have := hd so hso
      positivity
    · simpa using hne
  have hT0 : (selections.map (fun so => 1 / so.2.decimal)).sum ≠ 0 := ne_of_gt hT
  refine ⟨rfl, ?_, ?_⟩
  · intro so hso
    have hd0 : so.2.decimal ≠ 0 := by
      have := hd so hso
      linarith
    field_simp
    ring
  · have hcongr : selections.map (fun so =>
        total_stake / (so.2.decimal * (selections.map (fun so => 1 / so.2.decimal)).sum)) =
        selections.map (fun so => (1 / so.2.decimal) *
          (total_stake / (selections.map (fun so => 1 / so.2.decimal)).sum)) := by
      apply List.map_congr_left
      intro so hso
      have hd0 : so.2.decimal ≠ 0 := by
        have := hd so hso
        linarith
      field_simp
    rw [hcongr, List.sum_map_mul_right, mul_comm, div_mul_cancel₀ _ hT0]

/-- Witness for `calculate_arb_stakes_spec`: the unrounded stakes for
decimal odds 2.10 and 2.05 and a $1000 total sum exactly to $1000. -/
theorem calculate_arb_stakes_spec_witness :
    ([("A", Odds.mk "BookA" 110), ("B", Odds.mk "BookB" 105)].map (fun so =>
      (1000:ℚ) / (so.2.decimal *
        ([("A", Odds.mk "BookA" 110), ("B", Odds.mk "BookB" 105)].map
          (fun so => 1 / so.2.decimal)).sum))).sum = 1000 :=
  (calculate_arb_stakes_spec [("A", Odds.mk "BookA" 110), ("B", Odds.mk "BookB" 105)] 1000
    (by simp)
    (by
      intro so hso
      simp only [List.mem_cons, List.not_mem_nil, or_false] at hso
      rcases hso with rfl | rfl <;> norm_num [Odds.decimal])).2.2

/-- C7, code bug: the docstring example of `find_middles` (Team A −2.5 at
Book1, Team B +3.5 at Book2, magnitude sum 6 exceeding the gap 2) yields no
middle, because `_group_by_event` keys on the point, so the two lines land
in different singleton groups and are never compared. -/
theorem find_middles_docstring_example :
    |(Rat.mk' (-5) 2 (by decide) (by decide) : ℚ)| +
        |(Rat.mk' 7 2 (by decide) (by decide) : ℚ)| = 6 ∧
    find_middles
      [Market.mk "nfl" "Game" "spreads" "Team A"
         (some (Rat.mk' (-5) 2 (by decide) (by decide))) [Odds.mk "Book1" (-110)],
       Market.mk "nfl" "Game" "spreads" "Team B"
         (some (Rat.mk' 7 2 (by decide) (by decide))) [Odds.mk "Book2" (-110)]] 2 = [] := by
  constructor
  · rw [show (Rat.mk' (-5) 2 (by decide) (by decide) : ℚ) = -5/2 by
        rw [Rat.mk'_eq_divInt, Rat.divInt_eq_div]; norm_num,
      show (Rat.mk' 7 2 (by decide) (by decide) : ℚ) = 7/2 by
        rw [Rat.mk'_eq_divInt, Rat.divInt_eq_div]; norm_num]
    rw [abs_of_nonpos (by norm_num), abs_of_nonneg (by norm_num)]
    norm_num
  · have h : (group_by_event
        [Market.mk "nfl" "Game" "spreads" "Team A"
           (some (Rat.mk' (-5) 2 (by decide) (by decide))) [Odds.mk "Book1" (-110)],
         Market.mk "nfl" "Game" "spreads" "Team B"
           (some (Rat.mk' 7 2 (by decide) (by decide))) [Odds.mk "Book2" (-110)]]).flatMap
        (fun kv => if kv.2.length < 2 then [] else pair_middles 2 kv.2) = [] := by decide
    simp only [find_middles, h, List.mergeSort_nil]

/-- The sum of the best (max-decimal) implied probabilities of a group of
markets, 0 standing in for a market with no odds (spec-side quantity for
the arbitrage condition). -/
def best_implied_sum (markets : List Market) : ℚ :=
  (markets.map (fun m => ((m.best_odds).map Odds.implied_prob).getD 0)).sum

lemma best_odds_eq_none_iff (m : Market) : m.best_odds = none ↔ m.odds_list = [] := by
  cases h : m.odds_list with
  | nil => simp [Market.best_odds, h]
  | cons a t => simp [Market.best_odds, h]

lemma collect_best_isSome_iff (ms : List Market) :
    (collect_best ms).isSome ↔ ∀ m ∈ ms, m.odds_list ≠ [] := by
  induction ms with
  | nil => simp [collect_best]
  | cons m rest ih =>
    cases hb : m.best_odds with
    | none =>
      have hnil : m.odds_list = [] := (best_odds_eq_none_iff m).1 hb
      simp [collect_best, hb, hnil]
    | some b =>
      have hne : m.odds_list ≠ [] := by
        intro hnil
        rw [(best_odds_eq_none_iff m).2 hnil] at hb
        exact Option.noConfusion hb
      simp [collect_best, hb, hne, ih]

lemma collect_best_sum : ∀ {ms : List Market} {l : List (String × Odds)},
    collect_best ms = some l →
    (l.map (fun so => so.2.implied_prob)).sum = best_implied_sum ms := by
  intro ms
  induction ms with
  | nil =>
    intro l h
    injection h with h
    subst h
    rfl
  | cons m rest ih =>
    intro l h
    cases hb : m.best_odds with
    | none => simp [collect_best, hb] at h
    | some b =>
      simp only [collect_best, hb] at h
      cases hr : collect_best rest with
      | none => rw [hr] at h; simp at h
      | some l2 =>
        rw [hr] at h
        rw [Option.map_some'] at h
        injection h with h
        subst h
        simpa [best_implied_sum, hb] using ih hr

lemma check_arbitrage_isSome_iff (g : List Market) (mp ts : ℚ) :
    (check_arbitrage g mp ts).isSome ↔
      2 ≤ g.length ∧ (∀ m ∈ g, m.odds_list ≠ []) ∧
      best_implied_sum g < 1 ∧ mp ≤ (1 / best_implied_sum g - 1) * 100 := by
  match g with
  | [] => simp [check_arbitrage]
  | [m] => simp [check_arbitrage]
  | m0 :: m1 :: rest =>
    cases hc : collect_best (m0 :: m1 :: rest) with
    | none =>
      have hnall : ¬ ∀ m ∈ m0 :: m1 :: rest, m.odds_list ≠ [] := by
        intro hall
        have h2 := (collect_best_isSome_iff (m0 :: m1 :: rest)).2 hall
        rw [hc] at h2
        exact Bool.noConfusion h2
      refine iff_of_false (by simp [check_arbitrage, hc]) ?_
      rintro ⟨-, hall, -, -⟩
      exact hnall hall
    | some l =>
      have hsum := collect_best_sum hc
      have hall : ∀ m ∈ m0 :: m1 :: rest, m.odds_list ≠ [] := by
        apply (collect_best_isSome_iff (m0 :: m1 :: rest)).1
        rw [hc]
        rfl
      simp only [check_arbitrage, hc, hsum]
      by_cases h1 : 1 ≤ best_implied_sum (m0 :: m1 :: rest)
      · rw [if_pos h1]
        refine iff_of_false (by simp) ?_
        rintro ⟨-, -, hlt, -⟩
        exact absurd h1 (not_le.2 hlt)
      · rw [if_neg h1]
        by_cases h2 : (1 / best_implied_sum (m0 :: m1 :: rest) - 1) * 100 < mp
        · rw [if_pos h2]
          refine iff_of_false (by simp) ?_
          rintro ⟨-, -, -, hle⟩
          exact absurd hle (not_le.2 h2)
        · rw [if_neg h2]
          refine iff_of_true (by simp) ?_
          exact ⟨by simp, hall, not_le.1 h1, not_lt.1 h2⟩

lemma find_arbitrage_mem_iff (markets : List Market) (mp ts : ℚ) (a : ArbitrageOpportunity) :
    a ∈ find_arbitrage markets mp ts ↔
      ∃ kv ∈ group_by_event markets, check_arbitrage kv.2 mp ts = some a := by
  simp only [find_arbitrage]
  rw [(List.mergeSort_perm _ _).mem_iff]
  simp [List.mem_filterMap]

lemma find_arbitrage_sorted (markets : List Market) (mp ts : ℚ) :
    (find_arbitrage markets mp ts).Sorted
      (fun a b => b.profit_percent ≤ a.profit_percent) := by
  have h := @List.sorted_mergeSort ArbitrageOpportunity
    (fun a b => decide (b.profit_percent ≤ a.profit_percent))
    (fun a b c hab hbc => by
      simp only [decide_eq_true_eq] at *
      exact le_trans hbc hab)
    (fun a b => by
      simp only [Bool.or_eq_true, decide_eq_true_eq]
      exact le_total _ _)
    ((group_by_event markets).filterMap (fun kv => check_arbitrage kv.2 mp ts))
  exact List.Pairwise.imp (fun hd => of_decide_eq_true hd) h

/-- C5: an event group produces an opportunity exactly when it has at
least two markets, each with odds, the summed best implied probabilities
are below 1 and the profit percentage reaches the threshold; the reported
list consists exactly of the per-group opportunities, sorted by profit
percentage descending.  (Empty and singleton groups fall under the first
conjunct of the right-hand side: no opportunity, no error.) -/
theorem find_arbitrage_spec (markets : List Market) (min_profit total_stake : ℚ) :
    (∀ a, a ∈ find_arbitrage markets min_profit total_stake ↔
        ∃ kv ∈ group_by_event markets,
          check_arbitrage kv.2 min_profit total_stake = some a) ∧
    (∀ kv ∈ group_by_event markets,
        ((check_arbitrage kv.2 min_profit total_stake).isSome ↔
          2 ≤ kv.2.length ∧ (∀ m ∈ kv.2, m.odds_list ≠ []) ∧
          best_implied_sum kv.2 < 1 ∧
          min_profit ≤ (1 / best_implied_sum kv.2 - 1) * 100)) ∧
    (find_arbitrage markets min_profit total_stake).Sorted
      (fun a b => b.profit_percent ≤ a.profit_percent) :=
  ⟨fun a => find_arbitrage_mem_iff markets min_profit total_stake a,
   fun kv _ => check_arbitrage_isSome_iff kv.2 min_profit total_stake,
   find_arbitrage_sorted markets min_profit total_stake⟩

/-- Witness for `find_arbitrage_spec`: the group criterion instantiated on
the two-market group with decimal odds 2.10 and 2.05. -/
theorem find_arbitrage_spec_witness :
    (check_arbitrage [Market.mk "nfl" "G" "h2h" "A" none [Odds.mk "BookA" 110],
                      Market.mk "nfl" "G" "h2h" "B" none [Odds.mk "BookB" 105]]
        (1/2) 1000).isSome ↔
      2 ≤ ([Market.mk "nfl" "G" "h2h" "A" none [Odds.mk "BookA" 110],
            Market.mk "nfl" "G" "h2h" "B" none [Odds.mk "BookB" 105]] : List Market).length ∧
      (∀ m ∈ ([Market.mk "nfl" "G" "h2h" "A" none [Odds.mk "BookA" 110],
               Market.mk "nfl" "G" "h2h" "B" none [Odds.mk "BookB" 105]] : List Market),
        m.odds_list ≠ []) ∧
      best_implied_sum [Market.mk "nfl" "G" "h2h" "A" none [Odds.mk "BookA" 110],
                        Market.mk "nfl" "G" "h2h" "B" none [Odds.mk "BookB" 105]] < 1 ∧
      (1/2 : ℚ) ≤ (1 / best_implied_sum
          [Market.mk "nfl" "G" "h2h" "A" none [Odds.mk "BookA" 110],
           Market.mk "nfl" "G" "h2h" "B" none [Odds.mk "BookB" 105]] - 1) * 100 :=
  (find_arbitrage_spec
      [Market.mk "nfl" "G" "h2h" "A" none [Odds.mk "BookA" 110],
       Market.mk "nfl" "G" "h2h" "B" none [Odds.mk "BookB" 105]] (1/2) 1000).2.1
    ("G_h2h", [Market.mk "nfl" "G" "h2h" "A" none [Odds.mk "BookA" 110],
               Market.mk "nfl" "G" "h2h" "B" none [Odds.mk "BookB" 105]])
    (by decide)

lemma lookup_eq_none_of_not_mem {α β : Type} [BEq α] [LawfulBEq α]
    (l : List (α × β)) (a : α) (h : a ∉ l.map Prod.fst) : l.lookup a = none := by
  induction l with
  | nil => rfl
  | cons kv rest ih =>
    simp only [List.map_cons, List.mem_cons, not_or] at h
    have hf : (a == kv.1) = false := by simpa using h.1
    rw [List.lookup_cons, hf]
    exact ih h.2

/-- C10: bookmaker matching is case-insensitive at the public interface:
`get_odds_by_book` returns the first odds entry whose bookmaker equals the
query ignoring case (`none` when there is no such entry), queries differing
only in case give identical results for both functions, and
`get_book_weight` returns the default weight 0.5 for any bookmaker whose
lowercased name is not in the sharpness table. -/
theorem book_matching_case_insensitive :
    (∀ (m : Market) (b1 b2 : String), str_lower b1 = str_lower b2 →
        m.get_odds_by_book b1 = m.get_odds_by_book b2 ∧
        get_book_weight b1 = get_book_weight b2) ∧
    (∀ (m : Market) (b : String) (o : Odds),
        (m.get_odds_by_book b = some o ↔
          str_lower o.bookmaker = str_lower b ∧
          ∃ l1 l2, m.odds_list = l1 ++ o :: l2 ∧
            ∀ o2 ∈ l1, str_lower o2.bookmaker ≠ str_lower b)) ∧
    (∀ (m : Market) (b : String),
        (m.get_odds_by_book b = none ↔
          ∀ o ∈ m.odds_list, str_lower o.bookmaker ≠ str_lower b)) ∧
    (∀ b : String, str_lower b ∉ book_weights.map Prod.fst → get_book_weight b = 0.5) := by
  refine ⟨?_, ?_, ?_, ?_⟩
  · intro m b1 b2 h
    unfold Market.get_odds_by_book get_book_weight
    rw [h]
    exact ⟨rfl, rfl⟩
  · intro m b o
    unfold Market.get_odds_by_book
    rw [List.find?_eq_some]
    simp [beq_iff_eq]
  · intro m b
    unfold Market.get_odds_by_book
    rw [List.find?_eq_none]
    simp [beq_iff_eq]
  · intro b hb
    unfold get_book_weight
    rw [lookup_eq_none_of_not_mem _ _ hb]
    rfl

/-- Witness for `book_matching_case_insensitive`: queries `"Pinnacle"` and
`"PINNACLE"` agree on a market quoting `"pinnacle"` and on the weight
table. -/
theorem book_matching_case_insensitive_witness :
    (Market.mk "nba" "E" "h2h" "A" none [Odds.mk "pinnacle" 110]).get_odds_by_book
        "Pinnacle" =
      (Market.mk "nba" "E" "h2h" "A" none [Odds.mk "pinnacle" 110]).get_odds_by_book
        "PINNACLE" ∧
    get_book_weight "Pinnacle" = get_book_weight "PINNACLE" :=
  book_matching_case_insensitive.1
    (Market.mk "nba" "E" "h2h" "A" none [Odds.mk "pinnacle" 110]) "Pinnacle" "PINNACLE"
    (by decide)

/-- C9 counterexample: the fair vector `[0.0005, 0.9995]` (positive
entries, sum exactly 1) is changed by `additive_devig` beyond the 1e-6
tolerance: the 0.001 floor lifts the first entry to 0.001/1.0005 ≈ 0.0009995. -/
theorem additive_devig_not_idempotent :
    (0:ℝ) < 0.0005 ∧ (0:ℝ) < 0.9995 ∧ ([0.0005, 0.9995] : List ℝ).sum = 1 ∧
    additive_devig [0.0005, 0.9995] = [0.001/1.0005, 0.9995/1.0005] ∧
    ¬ |(0.001/1.0005 : ℝ) - 0.0005| ≤ 1e-6 := by
  refine ⟨by norm_num, by norm_num, by norm_num, ?_, ?_⟩
  · norm_num [additive_devig, max_eq_left, max_eq_right]
  · rw [abs_le]
    norm_num

/-- C9 (amended): a probability vector of length ≥ 2 with entries each at
least 0.001 and sum exactly 1 is returned unchanged (exactly) by both the
multiplicative and the additive de-vig. -/
theorem devig_idempotent_amended (l : List ℝ) (h2 : 2 ≤ l.length)
    (hmin : ∀ p ∈ l, (0.001:ℝ) ≤ p) (hsum : l.sum = 1) :
    multiplicative_devig l = l ∧ additive_devig l = l := by
  constructor
  · simp only [multiplicative_devig, hsum, if_neg one_ne_zero]
    simp
  · have hn : ¬(l.length = 0) := by omega
    have hmax : ∀ p ∈ l, max (0.001:ℝ) (p - (l.sum - 1) / (l.length : ℝ)) = p := by
      intro p hp
      rw [hsum, sub_self, zero_div, sub_zero]
      exact max_eq_right (hmin p hp)
    have hfair : l.map (fun p => max (0.001:ℝ) (p - (l.sum - 1) / (l.length : ℝ))) = l := by
      rw [List.map_congr_left hmax]
      exact List.map_id' l
    simp only [additive_devig, if_neg hn]
    rw [hfair, hsum]
    simp

/-- Witness for `devig_idempotent_amended`: the fair coin `[0.5, 0.5]` is
unchanged by both methods. -/
theorem devig_idempotent_amended_witness :
    multiplicative_devig [0.5, 0.5] = [0.5, 0.5] ∧
    additive_devig [0.5, 0.5] = [0.5, 0.5] :=
  devig_idempotent_amended [0.5, 0.5] (by simp)
    (by
      intro p hp
      simp only [List.mem_cons, List.not_mem_nil, or_false] at hp
      rcases hp with rfl | rfl <;> norm_num)
    (by norm_num)

/-- C8: `devig` raises `ValueError` (modelled as `Except.error`) with a
message naming the five allowed methods exactly when the method name is
not one of the table's keys, and returns a result carrying the requested
method name (no silent default) for every recognized name. -/
theorem devig_dispatch_spec (implied_probs : List ℝ) (method : String) :
    (method ∉ DEVIG_METHODS.map Prod.fst →
      devig implied_probs method = .error (devig_error_message method)) ∧
    (method ∈ DEVIG_METHODS.map Prod.fst →
      ∃ r, devig implied_probs method = .ok r ∧ r.method = method ∧
        r.original_implied = implied_probs) := by
  have hkeys : DEVIG_METHODS.map Prod.fst =
      ["multiplicative", "additive", "power", "shin", "weighted"] := by
    simp [DEVIG_METHODS]
  constructor
  · intro hnot
    rw [hkeys] at hnot
    simp only [List.mem_cons, List.not_mem_nil, or_false, not_or] at hnot
    obtain ⟨h1, h2, h3, h4, h5⟩ := hnot
    have e1 : (method == "multiplicative") = false := beq_eq_false_iff_ne.mpr h1
    have e2 : (method == "additive") = false := beq_eq_false_iff_ne.mpr h2
    have e3 : (method == "power") = false := beq_eq_false_iff_ne.mpr h3
    have e4 : (method == "shin") = false := beq_eq_false_iff_ne.mpr h4
    have e5 : (method == "weighted") = false := beq_eq_false_iff_ne.mpr h5
    simp [devig, DEVIG_METHODS, List.lookup, e1, e2, e3, e4, e5]
  · intro hmem
    rw [hkeys] at hmem
    simp only [List.mem_cons, List.not_mem_nil, or_false] at hmem
    rcases hmem with rfl | rfl | rfl | rfl | rfl <;>
      exact ⟨_, rfl, rfl, rfl⟩

/-- Witness for `devig_dispatch_spec`: the unknown name `"banana"` errors
with the enumerating message; `"multiplicative"` succeeds and keeps its
name in the result. -/
theorem devig_dispatch_spec_witness :
    devig [0.5, 0.55] "banana" = .error (devig_error_message "banana") ∧
    ∃ r, devig [0.5, 0.55] "multiplicative" = .ok r ∧ r.method = "multiplicative" ∧
      r.original_implied = [0.5, 0.55] :=
  ⟨(devig_dispatch_spec [0.5, 0.55] "banana").1 (by decide),
   (devig_dispatch_spec [0.5, 0.55] "multiplicative").2 (by decide)⟩

lemma list_sum_map_div (l : List ℝ) (c : ℝ) :
    (l.map (fun p => p / c)).sum = l.sum / c := by
  induction l with
  | nil => simp
  | cons h t ih => simp [ih, add_div]

lemma mem_lt_sum {l : List ℝ} (h2 : 2 ≤ l.length) (hpos : ∀ x ∈ l, 0 < x) :
    ∀ x ∈ l, x < l.sum := by
  intro x hx
  have hperm := List.perm_cons_erase hx
  have hsum : l.sum = x + (l.erase x).sum := by
    rw [hperm.sum_eq]
    simp
  have hne : l.erase x ≠ [] := by
    have hlen := List.length_erase_of_mem hx
    intro hcontra
    rw [hcontra] at hlen
    simp at hlen
    omega
  have hps : 0 < (l.erase x).sum :=
    List.sum_pos _ (fun y hy => hpos y (List.erase_subset _ _ hy)) hne
  linarith

lemma normalized_good (g : List ℝ) (h2 : 2 ≤ g.length) (hpos : ∀ x ∈ g, 0 < x) :
    (g.map (fun p => p / g.sum)).length = g.length ∧
    (g.map (fun p => p / g.sum)).sum = 1 ∧
    ∀ q ∈ g.map (fun p => p / g.sum), 0 < q ∧ q < 1 := by
  have hS : 0 < g.sum := by
    apply List.sum_pos g hpos
    intro hcontra
    rw [hcontra] at h2
    simp at h2
  refine ⟨by simp, ?_, ?_⟩
  · rw [list_sum_map_div, div_self (ne_of_gt hS)]
  · intro q hq
    rw [List.mem_map] at hq
    obtain ⟨x, hx, rfl⟩ := hq
    exact ⟨div_pos (hpos x hx) hS, (div_lt_one hS).2 (mem_lt_sum h2 hpos x hx)⟩

lemma multiplicative_devig_good (l : List ℝ) (h2 : 2 ≤ l.length)
    (hpos : ∀ p ∈ l, 0 < p) (hsum : 1 < l.sum) :
    (multiplicative_devig l).length = l.length ∧ (multiplicative_devig l).sum = 1 ∧
    ∀ q ∈ multiplicative_devig l, 0 < q ∧ q < 1 := by
  have h0 : l.sum ≠ 0 := by linarith
  simp only [multiplicative_devig, if_neg h0]
  exact normalized_good l h2 hpos

lemma additive_devig_good (l : List ℝ) (h2 : 2 ≤ l.length)
    (hpos : ∀ p ∈ l, 0 < p) (hsum : 1 < l.sum) :
    (additive_devig l).length = l.length ∧ (additive_devig l).sum = 1 ∧
    ∀ q ∈ additive_devig l, 0 < q ∧ q < 1 := by
  have hn : ¬(l.length = 0) := by omega
  simp only [additive_devig, if_neg hn]
  have hfl : (l.map (fun p => max (0.001:ℝ) (p - (l.sum - 1) / (l.length:ℝ)))).length
      = l.length := by simp
  have hfpos : ∀ x ∈ l.map (fun p => max (0.001:ℝ) (p - (l.sum - 1) / (l.length:ℝ))),
      0 < x := by
    intro x hx
    rw [List.mem_map] at hx
    obtain ⟨p, hp, rfl⟩ := hx
    exact lt_of_lt_of_le (by norm_num) (le_max_left _ _)
  obtain ⟨ha, hb, hc⟩ := normalized_good _ (by rw [hfl]; exact h2) hfpos
  exact ⟨by rw [ha, hfl], hb, hc⟩

lemma rpow_normalized_good (l : List ℝ) (k : ℝ) (h2 : 2 ≤ l.length)
    (hpos : ∀ p ∈ l, 0 < p) :
    ((l.map (fun p => p ^ k)).map (fun p => p / (l.map (fun p => p ^ k)).sum)).length
        = l.length ∧
    ((l.map (fun p => p ^ k)).map (fun p => p / (l.map (fun p => p ^ k)).sum)).sum = 1 ∧
    ∀ q ∈ (l.map (fun p => p ^ k)).map (fun p => p / (l.map (fun p => p ^ k)).sum),
      0 < q ∧ q < 1 := by
  have hfl : (l.map (fun p => p ^ k)).length = l.length := by simp
  have hfpos : ∀ x ∈ l.map (fun p => p ^ k), 0 < x := by
    intro x hx
    rw [List.mem_map] at hx
    obtain ⟨p, hp, rfl⟩ := hx
    exact Real.rpow_pos_of_pos (hpos p hp) k
  obtain ⟨ha, hb, hc⟩ := normalized_good _ (by rw [hfl]; exact h2) hfpos
  exact ⟨by rw [ha, hfl], hb, hc⟩

lemma power_devig_good (l : List ℝ) (h2 : 2 ≤ l.length)
    (hpos : ∀ p ∈ l, 0 < p) (hsum : 1 < l.sum) :
    (power_devig l).length = l.length ∧ (power_devig l).sum = 1 ∧
    ∀ q ∈ power_devig l, 0 < q ∧ q < 1 := by
  have hn : ¬(l.length < 2) := by omega
  simp only [power_devig, if_neg hn]
  exact rpow_normalized_good l _ h2 hpos

lemma list_getD_pos (r : List ℝ) (h : ∀ q ∈ r, 0 < q) (i : ℕ) (hi : i < r.length) :
    0 < r.getD i 0 := by
  rw [List.getD_eq_getElem?_getD, List.getElem?_eq_getElem hi]
  exact h _ (List.getElem_mem hi)

lemma list_getD_nonneg (r : List ℝ) (h : ∀ q ∈ r, 0 ≤ q) (i : ℕ) :
    0 ≤ r.getD i 0 := by
  by_cases hi : i < r.length
  · rw [List.getD_eq_getElem?_getD, List.getElem?_eq_getElem hi]
    exact h _ (List.getElem_mem hi)
  · rw [List.getD_eq_getElem?_getD, List.getElem?_eq_none (by omega)]
    rfl

lemma clamp_normalized_good (l : List ℝ) (F : ℝ → ℝ) (h2 : 2 ≤ l.length) :
    ((l.map (fun p => max 0.001 (F p))).map
        (fun p => p / (l.map (fun p => max 0.001 (F p))).sum)).length = l.length ∧
    ((l.map (fun p => max 0.001 (F p))).map
        (fun p => p / (l.map (fun p => max 0.001 (F p))).sum)).sum = 1 ∧
    ∀ q ∈ (l.map (fun p => max 0.001 (F p))).map
        (fun p => p / (l.map (fun p => max 0.001 (F p))).sum), 0 < q ∧ q < 1 := by
  have hfl : (l.map (fun p => max (0.001:ℝ) (F p))).length = l.length := by simp
  have hfpos : ∀ x ∈ l.map (fun p => max (0.001:ℝ) (F p)), 0 < x := by
    intro x hx
    rw [List.mem_map] at hx
    obtain ⟨p, hp, rfl⟩ := hx
    exact lt_of_lt_of_le (by norm_num) (le_max_left _ _)
  obtain ⟨ha, hb, hc⟩ := normalized_good _ (by rw [hfl]; exact h2) hfpos
  exact ⟨by rw [ha, hfl], hb, hc⟩

lemma shin_devig_good (l : List ℝ) (h2 : 2 ≤ l.length)
    (hpos : ∀ p ∈ l, 0 < p) (hsum : 1 < l.sum) :
    (shin_devig l).length = l.length ∧ (shin_devig l).sum = 1 ∧
    ∀ q ∈ shin_devig l, 0 < q ∧ q < 1 := by
  match l, h2, hpos, hsum with
  | [p1, p2], h2, hpos, hsum =>
    simp only [shin_devig]
    split <;> (try split) <;> (try split) <;>
      first
      | exact multiplicative_devig_good [p1, p2] h2 hpos hsum
      | exact clamp_normalized_good [p1, p2] _ h2
  | a :: b :: c :: rest, h2, hpos, hsum =>
    simp only [shin_devig]
    exact multiplicative_devig_good (a :: b :: c :: rest) h2 hpos hsum

lemma weighted_core_good (l r1 r2 r3 r4 : List ℝ) (w1 w2 w3 w4 w5 : ℝ)
    (h2 : 2 ≤ l.length)
    (hr1len : r1.length = l.length) (hr1pos : ∀ q ∈ r1, 0 < q)
    (hr2pos : ∀ q ∈ r2, 0 ≤ q) (hr3pos : ∀ q ∈ r3, 0 ≤ q) (hr4pos : ∀ q ∈ r4, 0 ≤ q)
    (hw1 : 0 < w1) (hw2 : 0 ≤ w2) (hw3 : 0 ≤ w3) (hw4 : 0 ≤ w4)
    (hW : 0 < (([w1, w2, w3, w4, w5].take 4)).sum) :
    (((List.range l.length).map (fun i =>
        ((([r1, r2, r3, r4].zip [w1, w2, w3, w4, w5]).map
          (fun rw => rw.1.getD i 0 * rw.2 / (([w1, w2, w3, w4, w5].take 4)).sum)).sum))).map
      (fun p => p / ((List.range l.length).map (fun i =>
        ((([r1, r2, r3, r4].zip [w1, w2, w3, w4, w5]).map
          (fun rw => rw.1.getD i 0 * rw.2 /
            (([w1, w2, w3, w4, w5].take 4)).sum)).sum))).sum)).length = l.length ∧
    (((List.range l.length).map (fun i =>
        ((([r1, r2, r3, r4].zip [w1, w2, w3, w4, w5]).map
          (fun rw => rw.1.getD i 0 * rw.2 / (([w1, w2, w3, w4, w5].take 4)).sum)).sum))).map
      (fun p => p / ((List.range l.length).map (fun i =>
        ((([r1, r2, r3, r4].zip [w1, w2, w3, w4, w5]).map
          (fun rw => rw.1.getD i 0 * rw.2 /
            (([w1, w2, w3, w4, w5].take 4)).sum)).sum))).sum)).sum = 1 ∧
    ∀ q ∈ ((List.range l.length).map (fun i =>
        ((([r1, r2, r3, r4].zip [w1, w2, w3, w4, w5]).map
          (fun rw => rw.1.getD i 0 * rw.2 / (([w1, w2, w3, w4, w5].take 4)).sum)).sum))).map
      (fun p => p / ((List.range l.length).map (fun i =>
        ((([r1, r2, r3, r4].zip [w1, w2, w3, w4, w5]).map
          (fun rw => rw.1.getD i 0 * rw.2 /
            (([w1, w2, w3, w4, w5].take 4)).sum)).sum))).sum),
      0 < q ∧ q < 1 := by
  have hBlen : ((List.range l.length).map (fun i =>
      ((([r1, r2, r3, r4].zip [w1, w2, w3, w4, w5]).map
        (fun rw => rw.1.getD i 0 * rw.2 /
          (([w1, w2, w3, w4, w5].take 4)).sum)).sum))).length = l.length := by
    simp
  have hBpos : ∀ x ∈ (List.range l.length).map (fun i =>
      ((([r1, r2, r3, r4].zip [w1, w2, w3, w4, w5]).map
        (fun rw => rw.1.getD i 0 * rw.2 /
          (([w1, w2, w3, w4, w5].take 4)).sum)).sum)), 0 < x := by
    intro x hx
    rw [List.mem_map] at hx
    obtain ⟨i, hi, rfl⟩ := hx
    rw [List.mem_range] at hi
    show 0 < r1.getD i 0 * w1 / ([w1, w2, w3, w4, w5].take 4).sum +
      (r2.getD i 0 * w2 / ([w1, w2, w3, w4, w5].take 4).sum +
        (r3.getD i 0 * w3 / ([w1, w2, w3, w4, w5].take 4).sum +
          (r4.getD i 0 * w4 / ([w1, w2, w3, w4, w5].take 4).sum + 0)))
    have t1 : 0 < r1.getD i 0 * w1 / ([w1, w2, w3, w4, w5].take 4).sum :=
      div_pos (mul_pos (list_getD_pos r1 hr1pos i (by omega)) hw1) hW
    have t2 : 0 ≤ r2.getD i 0 * w2 / ([w1, w2, w3, w4, w5].take 4).sum :=
      div_nonneg (mul_nonneg (list_getD_nonneg r2 hr2pos i) hw2) hW.le
    have t3 : 0 ≤ r3.getD i 0 * w3 / ([w1, w2, w3, w4, w5].take 4).sum :=
      div_nonneg (mul_nonneg (list_getD_nonneg r3 hr3pos i) hw3) hW.le
    have t4 : 0 ≤ r4.getD i 0 * w4 / ([w1, w2, w3, w4, w5].take 4).sum :=
      div_nonneg (mul_nonneg (list_getD_nonneg r4 hr4pos i) hw4) hW.le
    linarith
  obtain ⟨ha, hb, hc⟩ := normalized_good _ (by rw [hBlen]; exact h2) hBpos
  exact ⟨by rw [ha, hBlen], hb, hc⟩

lemma weighted_devig_good (l : List ℝ) (h2 : 2 ≤ l.length)
    (hpos : ∀ p ∈ l, 0 < p) (hsum : 1 < l.sum) :
    (weighted_devig l none).length = l.length ∧ (weighted_devig l none).sum = 1 ∧
    ∀ q ∈ weighted_devig l none, 0 < q ∧ q < 1 := by
  obtain ⟨hm1, hm2, hm3⟩ := multiplicative_devig_good l h2 hpos hsum
  obtain ⟨ha1, ha2, ha3⟩ := additive_devig_good l h2 hpos hsum
  obtain ⟨hp1, hp2, hp3⟩ := power_devig_good l h2 hpos hsum
  obtain ⟨hs1, hs2, hs3⟩ := shin_devig_good l h2 hpos hsum
  simp only [weighted_devig, Option.getD_none]
  by_cases hlen : l.length = 2
  · rw [if_pos hlen]
    exact weighted_core_good l _ _ _ _ 0.2 0.1 0.3 0.4 0.0 h2 hm1
      (fun q hq => (hm3 q hq).1)
      (fun q hq => ((ha3 q hq).1).le) (fun q hq => ((hp3 q hq).1).le)
      (fun q hq => ((hs3 q hq).1).le)
      (by norm_num) (by norm_num) (by norm_num) (by norm_num) (by norm_num)
  · rw [if_neg hlen]
    exact weighted_core_good l _ _ _ _ 0.3 0.1 0.5 0.1 0.0 h2 hm1
      (fun q hq => (hm3 q hq).1)
      (fun q hq => ((ha3 q hq).1).le) (fun q hq => ((hp3 q hq).1).le)
      (fun q hq => ((hs3 q hq).1).le)
      (by norm_num) (by norm_num) (by norm_num) (by norm_num) (by norm_num)

/-- The claim's validity predicate for a de-vig output: same length as the
input, every entry strictly between 0 and 1, and the sum equal to 1 within
1e-6. -/
def devig_ok (input output : List ℝ) : Prop :=
  output.length = input.length ∧ (∀ q ∈ output, 0 < q ∧ q < 1) ∧ |output.sum - 1| ≤ 1e-6

/-- C1: on every implied-probability vector of length ≥ 2 with positive
entries summing above 1, each of the five de-vig methods returns a vector
of the same length with entries in (0,1) summing to 1 within 1e-6 (the
proofs give the sum exactly 1). -/
theorem devig_methods_valid (l : List ℝ) (h2 : 2 ≤ l.length)
    (hpos : ∀ p ∈ l, 0 < p) (hsum : 1 < l.sum) :
    devig_ok l (multiplicative_devig l) ∧ devig_ok l (additive_devig l) ∧
    devig_ok l (power_devig l) ∧ devig_ok l (shin_devig l) ∧
    devig_ok l (weighted_devig l none) := by
  have conv1 : ∀ out : List ℝ, out.length = l.length ∧ out.sum = 1 ∧
      (∀ q ∈ out, 0 < q ∧ q < 1) → devig_ok l out := by
    rintro out ⟨hlen, hsum1, hq⟩
    refine ⟨hlen, hq, ?_⟩
    rw [hsum1]
    norm_num
  exact ⟨conv1 _ (multiplicative_devig_good l h2 hpos hsum),
         conv1 _ (additive_devig_good l h2 hpos hsum),
         conv1 _ (power_devig_good l h2 hpos hsum),
         conv1 _ (shin_devig_good l h2 hpos hsum),
         conv1 _ (weighted_devig_good l h2 hpos hsum)⟩

/-- Witness for `devig_methods_valid`: the vig-laden two-way market
`[0.55, 0.55]` (sum 1.1). -/
theorem devig_methods_valid_witness :
    devig_ok [0.55, 0.55] (multiplicative_devig [0.55, 0.55]) ∧
    devig_ok [0.55, 0.55] (additive_devig [0.55, 0.55]) ∧
    devig_ok [0.55, 0.55] (power_devig [0.55, 0.55]) ∧
    devig_ok [0.55, 0.55] (shin_devig [0.55, 0.55]) ∧
    devig_ok [0.55, 0.55] (weighted_devig [0.55, 0.55] none) :=
  devig_methods_valid [0.55, 0.55] (by simp)
    (by
      intro p hp
      simp only [List.mem_cons, List.not_mem_nil, or_false] at hp
      rcases hp with rfl | rfl <;> norm_num)
    (by norm_num)
